import Mathlib

/-!
Shallow embedding of the DataNuke secure-deletion tool, translated from the
C sources: src/main.c, src/secure_delete.c, src/platform.c, the crypto
module (crypto.c), and include/datanuke.h.

Modelling conventions:
- byte buffers are lists of byte values (Nat);
- fallible platform / libc / OpenSSL calls are driven by explicit oracle
  records (a Bool success flag per call site, and random bytes as functions
  from a call index and position to a byte), so every execution path of the
  C code corresponds to a choice of oracle;
- C while-loops whose trip count is bounded by the number of bytes left are
  written with an explicit fuel argument equal to that bound, so every
  definition is kernel-computable; an adequacy lemma shows the fuel never
  runs out when it is instantiated the way the top-level functions do it;
- NULL pointer arguments are modelled with Option (or a Bool flag where the
  pointee is irrelevant).
-/

/-- Return code DATANUKE_SUCCESS (0) from include/datanuke.h. -/
def datanukeSuccess : Int := 0

/-- Return code DATANUKE_ERROR_IO (-1, I/O error) from include/datanuke.h. -/
def datanukeErrIo : Int := -1

/-- Return code DATANUKE_ERROR_CRYPTO (-2) from include/datanuke.h. -/
def datanukeErrCrypto : Int := -2

/-- Return code DATANUKE_ERROR_MEMORY (-3) from include/datanuke.h. -/
def datanukeErrMemory : Int := -3

/-- Return code DATANUKE_ERROR_PLATFORM (-4) from include/datanuke.h. -/
def datanukeErrPlatform : Int := -4

/-- Macro AES_KEY_SIZE (32 bytes) from include/datanuke.h. -/
def AES_KEY_SIZE : Nat := 32

/-- Macro AES_BLOCK_SIZE (16 bytes) from include/datanuke.h. -/
def AES_BLOCK_SIZE : Nat := 16

/-- The struct crypto_context_t from include/datanuke.h: the 32-byte key and
the 16-byte IV.  The opaque cipher_ctx pointer is owned by the external
OpenSSL provider and carries no state used by the embedded functions. -/
structure CryptoContext where
  key : List Nat
  iv : List Nat
  deriving DecidableEq

/-- Bytes produced by one RAND_bytes call of length n, drawn from the oracle
byte function rnd starting at index base. -/
def randBytes (rnd : Nat → Nat) (base n : Nat) : List Nat :=
  (List.range n).map (fun i => rnd (base + i))

/-- Embeds crypto_generate_key (crypto module): rejects a NULL buffer or a
size other than AES_KEY_SIZE, then fills the buffer from RAND_bytes.  On a
RAND_bytes failure the buffer is left unchanged and the crypto error code is
returned. -/
def crypto_generate_key (keyNull : Bool) (key_size : Nat) (rndOk : Bool)
    (rnd : Nat → Nat) (buf : List Nat) : List Nat × Int :=
  if keyNull ∨ key_size ≠ AES_KEY_SIZE then (buf, datanukeErrCrypto)
  else if rndOk then (randBytes rnd 0 AES_KEY_SIZE, datanukeSuccess)
  else (buf, datanukeErrCrypto)

/-- Embeds crypto_init (crypto module): NULL check, memset of the whole
context to zero, key generation via crypto_generate_key, then IV generation
via RAND_bytes.  If the IV call fails the function returns the crypto error
code with the generated key still in place (the C code returns before any
cleanup). -/
def crypto_init (ctxNull : Bool) (keyOk : Bool) (keyRnd : Nat → Nat)
    (ivOk : Bool) (ivRnd : Nat → Nat) : Option CryptoContext × Int :=
  if ctxNull then (none, datanukeErrCrypto)
  else
    let zeroed : CryptoContext :=
      ⟨List.replicate AES_KEY_SIZE 0, List.replicate AES_BLOCK_SIZE 0⟩
    let gk := crypto_generate_key false AES_KEY_SIZE keyOk keyRnd zeroed.key
    if gk.2 ≠ datanukeSuccess then
      (some ⟨gk.1, zeroed.iv⟩, datanukeErrCrypto)
    else if ivOk then
      (some ⟨gk.1, randBytes ivRnd 0 AES_BLOCK_SIZE⟩, datanukeSuccess)
    else
      (some ⟨gk.1, zeroed.iv⟩, datanukeErrCrypto)

/-- The final volatile byte-by-byte store loop of crypto_secure_wipe_key:
every byte of the buffer is assigned zero. -/
def volatileZero (buf : List Nat) : List Nat :=
  buf.map (fun _ => 0)

/-- Embeds crypto_secure_wipe_key (crypto module).  The four memset / RAND
passes each overwrite the whole fixed-size key and IV buffers, so in this
functional embedding each pass shadows the previous one; the RAND_bytes
return value is ignored by the C code, and on failure the buffer keeps the
bytes of pass 2.  The function ends with the volatile zero loop and always
returns success for a non-NULL context. -/
def crypto_secure_wipe_key (ctx : Option CryptoContext) (rndOk : Bool)
    (rnd : Nat → Nat) : Option CryptoContext × Int :=
  match ctx with
  | none => (none, datanukeErrCrypto)
  | some _ =>
    let key2 := List.replicate AES_KEY_SIZE 0xFF
    let iv2 := List.replicate AES_BLOCK_SIZE 0xFF
    let key3 := if rndOk then randBytes rnd 0 AES_KEY_SIZE else key2
    let iv3 := if rndOk then randBytes rnd AES_KEY_SIZE AES_BLOCK_SIZE else iv2
    let key4 := List.replicate AES_KEY_SIZE 0x00
    let iv4 := List.replicate AES_BLOCK_SIZE 0x00
    (some ⟨volatileZero key4, volatileZero iv4⟩, datanukeSuccess)

/-- Embeds crypto_cleanup (crypto module): wipes the key material and then
memsets the whole context to zero. -/
def crypto_cleanup (ctx : Option CryptoContext) (rndOk : Bool)
    (rnd : Nat → Nat) : Option CryptoContext :=
  match ctx with
  | none => none
  | some c =>
    let _ := crypto_secure_wipe_key (some c) rndOk rnd
    some ⟨List.replicate AES_KEY_SIZE 0, List.replicate AES_BLOCK_SIZE 0⟩

/-- C1: after crypto_secure_wipe_key returns on any non-NULL context, every
byte of the 32-byte key and the 16-byte IV is zero and the call reports
success, regardless of whether the pass-3 CSPRNG call succeeds or fails. -/
theorem c1_wipe_zeroizes_and_succeeds (ctx : CryptoContext) (rndOk : Bool)
    (rnd : Nat → Nat) :
    crypto_secure_wipe_key (some ctx) rndOk rnd =
      (some ⟨List.replicate AES_KEY_SIZE 0, List.replicate AES_BLOCK_SIZE 0⟩,
        datanukeSuccess) := by
  simp [crypto_secure_wipe_key, volatileZero, List.map_replicate]

/-- One fwrite event of the overwrite engine: the pass it belongs to, the
file offset it starts at, and the bytes written. -/
structure WriteEv where
  pass : Nat
  off : Nat
  data : List Nat
  deriving DecidableEq

/-- Oracle for one secure_overwrite run: results of stat / fopen / malloc,
the file size reported by stat, success of each fwrite call (indexed by a
global call counter), the RAND_bytes stream (call index, position within the
call), and the result of the final remove. -/
structure FileOracle where
  statOk : Bool
  st_size : Nat
  fopenOk : Bool
  mallocOk : Bool
  writeOk : Nat → Bool
  rng : Nat → Nat → Nat
  removeOk : Bool

/-- The per-pass fill byte chosen by the switch (pass % 3) in
secure_overwrite: 0x00, 0xFF, or 0xAA. -/
def fillPattern (pass : Nat) : Nat :=
  if pass % 3 = 0 then 0x00
  else if pass % 3 = 1 then 0xFF
  else 0xAA

/-- The buffer contents for one chunk inside the write loop of
secure_overwrite: random bytes when pass % 3 == 2 && pass > 0, else a memset
with the switch-selected pattern byte. -/
def fillChunk (rng : Nat → Nat → Nat) (pass idx n : Nat) : List Nat :=
  if pass % 3 = 2 ∧ 0 < pass then (List.range n).map (rng idx)
  else List.replicate n (fillPattern pass)

/-- Outcome of the inner write loop(s): normal completion with the next
write-call index and the trace so far, an fwrite failure, or fuel
exhaustion (never reached when the fuel bounds the bytes left, see the
adequacy lemmas). -/
inductive LoopOut where
  | ok (idx : Nat) (tr : List WriteEv)
  | wfail (idx : Nat) (tr : List WriteEv)
  | nofuel (tr : List WriteEv)
  deriving DecidableEq

/-- The while (remaining > 0) write loop of one pass of secure_overwrite:
chunk size is min(remaining, 4096), the buffer is filled by fillChunk, and a
failed fwrite aborts the loop.  The offset of each write is
st_size - remaining (the pass starts after fseek to 0). -/
def passLoop (o : FileOracle) (pass : Nat) :
    Nat → Nat → Nat → List WriteEv → LoopOut
  | fuel, remaining, idx, tr =>
    if remaining = 0 then .ok idx tr
    else
      match fuel with
      | 0 => .nofuel tr
      | fuel + 1 =>
        let chunk := min remaining 4096
        let data := fillChunk o.rng pass idx chunk
        if o.writeOk idx then
          passLoop o pass fuel (remaining - chunk) (idx + 1)
            (tr ++ [⟨pass, o.st_size - remaining, data⟩])
        else .wfail idx tr

/-- The for (pass = 0; pass < passes; pass++) loop of secure_overwrite,
counting down the passes still to run; each pass seeks back to offset 0 and
sweeps the whole file (fflush / fsync after a pass carry no state in this
model). -/
def passesLoop (o : FileOracle) : Nat → Nat → Nat → List WriteEv → LoopOut
  | 0, _, idx, tr => .ok idx tr
  | n + 1, pass, idx, tr =>
    match passLoop o pass o.st_size o.st_size idx tr with
    | .ok idx2 tr2 => passesLoop o n (pass + 1) idx2 tr2
    | out => out

/-- Result of a secure_overwrite run: the returned status, the trace of
fwrite events, whether remove(path) unlinked the file, whether the run ended
in the fwrite-failure branch, and the (never reached) fuel marker. -/
structure OvResult where
  status : Int
  writes : List WriteEv
  removed : Bool
  failedWrite : Bool
  fuelOut : Bool
  deriving DecidableEq

/-- Embeds secure_overwrite (src/secure_delete.c): argument check (NULL path
or passes == 0), stat, fopen, malloc, the pass loop, and finally
remove(path); remove runs only after every pass completed, and any fwrite
failure returns the I/O error code without reaching remove. -/
def secure_overwrite (pathNull : Bool) (o : FileOracle) (passes : Nat) :
    OvResult :=
  if pathNull ∨ passes = 0 then ⟨datanukeErrIo, [], false, false, false⟩
  else if o.statOk = false then ⟨datanukeErrIo, [], false, false, false⟩
  else if o.fopenOk = false then ⟨datanukeErrIo, [], false, false, false⟩
  else if o.mallocOk = false then ⟨datanukeErrMemory, [], false, false, false⟩
  else
    match passesLoop o passes 0 0 [] with
    | .ok _ tr =>
      if o.removeOk then ⟨datanukeSuccess, tr, true, false, false⟩
      else ⟨datanukeErrIo, tr, false, false, false⟩
    | .wfail _ tr => ⟨datanukeErrIo, tr, false, true, false⟩
    | .nofuel tr => ⟨datanukeErrIo, tr, false, false, true⟩

/-- Embeds secure_delete_file (src/secure_delete.c): a plain call of
secure_overwrite with the default 3 passes. -/
def secure_delete_file (pathNull : Bool) (o : FileOracle) : OvResult :=
  secure_overwrite pathNull o 3

/-- C6: inside the write loop the data for pass i is all-0x00 when
i % 3 = 0, all-0xFF when i % 3 = 1, and the RAND_bytes output when
i % 3 = 2 (the guard pass > 0 is implied by i % 3 = 2); and the switch
selects the 0xAA pattern byte exactly when i % 3 = 2, which is precisely
when the random branch preempts the memset, so 0xAA is never written. -/
theorem c6_pattern_selection (rng : Nat → Nat → Nat) (i idx n : Nat) :
    fillChunk rng i idx n =
      (if i % 3 = 0 then List.replicate n 0x00
       else if i % 3 = 1 then List.replicate n 0xFF
       else (List.range n).map (rng idx)) ∧
    (fillPattern i = 0xAA ↔ i % 3 = 2) := by
  have h3 : i % 3 < 3 := Nat.mod_lt _ (by norm_num)
  have hpos : i % 3 = 2 → 0 < i := by
    intro h2
    rcases Nat.eq_zero_or_pos i with h0 | h0
    · simp [h0] at h2
    · exact h0
  constructor
  · by_cases h0 : i % 3 = 0
    · simp [fillChunk, fillPattern, h0]
    · by_cases h1 : i % 3 = 1
      · simp [fillChunk, fillPattern, h1]
      · have h2 : i % 3 = 2 := by omega
        simp [fillChunk, fillPattern, h2, hpos h2]
  · constructor
    · intro h
      by_cases h0 : i % 3 = 0
      · simp [fillPattern, h0] at h
      · by_cases h1 : i % 3 = 1
        · simp [fillPattern, h1] at h
        · omega
    · intro h2
      simp [fillPattern, h2]

/-- The chunk buffer always holds exactly the chunk size of bytes. -/
theorem fillChunk_length (rng : Nat → Nat → Nat) (p idx n : Nat) :
    (fillChunk rng p idx n).length = n := by
  unfold fillChunk
  split <;> simp

/-- If the write loop of one pass completes normally, the trace only grows,
every new event belongs to this pass, and the events added cover every
offset from st_size - remaining up to st_size. -/
theorem passLoop_ok_spec (o : FileOracle) (p : Nat) (fuel : Nat) :
    ∀ remaining idx tr idx2 tr2,
      passLoop o p fuel remaining idx tr = .ok idx2 tr2 →
      remaining ≤ o.st_size →
      (∀ e ∈ tr, e ∈ tr2) ∧
      (∀ e ∈ tr2, e ∈ tr ∨ e.pass = p) ∧
      (∀ off, o.st_size - remaining ≤ off → off < o.st_size →
        ∃ e ∈ tr2, e.pass = p ∧ e.off ≤ off ∧ off < e.off + e.data.length) := by
  induction fuel with
  | zero =>
    intro remaining idx tr idx2 tr2 h hle
    by_cases h0 : remaining = 0
    · rw [passLoop] at h
      simp [h0] at h
      refine ⟨fun e he => by simp [← h.2, he], fun e he => .inl (by simp [← h.2] at he; exact he), ?_⟩
      intro off hlo hhi
      omega
    · rw [passLoop] at h
      simp [h0] at h
  | succ f ih =>
    intro remaining idx tr idx2 tr2 h hle
    by_cases h0 : remaining = 0
    · rw [passLoop] at h
      simp [h0] at h
      refine ⟨fun e he => by simp [← h.2, he], fun e he => .inl (by simp [← h.2] at he; exact he), ?_⟩
      intro off hlo hhi
      omega
    · rw [passLoop] at h
      simp [h0] at h
      by_cases hw : o.writeOk idx
      · simp [hw] at h
        obtain ⟨mono, tags, cov⟩ := ih _ _ _ _ _ h (by omega)
        have he0 : (⟨p, o.st_size - remaining, fillChunk o.rng p idx (min remaining 4096)⟩ : WriteEv) ∈ tr2 := by
          apply mono
          simp
        refine ⟨fun e he => mono e (by simp [he]), ?_, ?_⟩
        · intro e he
          rcases tags e he with h1 | h1
          · rcases List.mem_append.mp h1 with h2 | h2
            · exact .inl h2
            · simp at h2
              subst h2
              exact .inr rfl
          · exact .inr h1
        · intro off hlo hhi
          by_cases hc : off < o.st_size - remaining + min remaining 4096
          · refine ⟨_, he0, rfl, ?_, ?_⟩
            · exact hlo
            · simp [fillChunk_length]
              omega
          · apply cov off ?_ hhi
            have hmin : min remaining 4096 ≤ remaining := Nat.min_le_left _ _
            omega
      · simp [hw] at h

/-- If the whole pass loop completes normally, the trace only grows, every
new event belongs to a pass in [p0, p0 + n), and for every such pass the
events cover every offset of [0, st_size). -/
theorem passesLoop_ok_spec (o : FileOracle) (n : Nat) :
    ∀ p0 idx tr idx2 tr2,
      passesLoop o n p0 idx tr = .ok idx2 tr2 →
      (∀ e ∈ tr, e ∈ tr2) ∧
      (∀ e ∈ tr2, e ∈ tr ∨ (p0 ≤ e.pass ∧ e.pass < p0 + n)) ∧
      (∀ i, p0 ≤ i → i < p0 + n → ∀ off, off < o.st_size →
        ∃ e ∈ tr2, e.pass = i ∧ e.off ≤ off ∧ off < e.off + e.data.length) := by
  induction n with
  | zero =>
    intro p0 idx tr idx2 tr2 h
    rw [passesLoop] at h
    simp at h
    refine ⟨fun e he => by simp [← h.2, he], fun e he => .inl (by simp [← h.2] at he; exact he), ?_⟩
    intro i hlo hhi
    omega
  | succ m ih =>
    intro p0 idx tr idx2 tr2 h
    rw [passesLoop] at h
    cases hpl : passLoop o p0 o.st_size o.st_size idx tr with
    | ok idx1 tr1 =>
      rw [hpl] at h
      obtain ⟨m1, t1, c1⟩ := passLoop_ok_spec o p0 o.st_size _ _ _ _ _ hpl le_rfl
      obtain ⟨m2, t2, c2⟩ := ih _ _ _ _ _ h
      refine ⟨fun e he => m2 e (m1 e he), ?_, ?_⟩
      · intro e he
        rcases t2 e he with h1 | h1
        · rcases t1 e h1 with h2 | h2
          · exact .inl h2
          · exact .inr (by omega)
        · exact .inr (by omega)
      · intro i hlo hhi off hoff
        by_cases hi : i = p0
        · subst hi
          obtain ⟨e, he, hp, h1, h2⟩ := c1 off (by omega) hoff
          exact ⟨e, m2 e he, hp, h1, h2⟩
        · exact c2 i (by omega) (by omega) off hoff
    | wfail idx1 tr1 =>
      rw [hpl] at h
      simp at h
    | nofuel tr1 =>
      rw [hpl] at h
      simp at h

/-- C5: for every oracle (file of length st_size) and accepted pass count P,
if secure_overwrite returns success then the file was unlinked and the trace
contains exactly the passes 0..P-1, each sweeping every offset of
[0, st_size); a run that does not return success never unlinks, and a run
that ended in the fwrite-failure branch returns the I/O error code and never
unlinks.  Writes precede the unlink structurally: remove is evaluated only
after the pass loop has returned. -/
theorem c5_sweeps_then_unlink (o : FileOracle) (P : Nat) :
    ((secure_overwrite false o P).status = datanukeSuccess →
      (secure_overwrite false o P).removed = true ∧
      (∀ e ∈ (secure_overwrite false o P).writes, e.pass < P) ∧
      (∀ i, i < P → ∀ off, off < o.st_size →
        ∃ e ∈ (secure_overwrite false o P).writes,
          e.pass = i ∧ e.off ≤ off ∧ off < e.off + e.data.length)) ∧
    ((secure_overwrite false o P).status ≠ datanukeSuccess →
      (secure_overwrite false o P).removed = false) ∧
    ((secure_overwrite false o P).failedWrite = true →
      (secure_overwrite false o P).status = datanukeErrIo ∧
      (secure_overwrite false o P).removed = false) := by
  unfold secure_overwrite
  by_cases hP : P = 0
  · simp [hP, datanukeErrIo, datanukeSuccess]
  by_cases hs : o.statOk = false
  · simp [hP, hs, datanukeErrIo, datanukeSuccess]
  by_cases hf : o.fopenOk = false
  · simp [hP, hs, hf, datanukeErrIo, datanukeSuccess]
  by_cases hm : o.mallocOk = false
  · simp [hP, hs, hf, hm, datanukeErrMemory, datanukeSuccess]
  simp only [hP, hs, hf, hm]
  cases hpl : passesLoop o P 0 0 [] with
  | ok idx2 tr2 =>
    obtain ⟨_, t2, c2⟩ := passesLoop_ok_spec o P 0 0 [] idx2 tr2 hpl
    by_cases hr : o.removeOk
    · simp [hr, datanukeSuccess]
      refine ⟨?_, ?_⟩
      · intro e he
        rcases t2 e he with h1 | h1
        · simp at h1
        · omega
      · intro i hi off hoff
        exact c2 i (by omega) (by omega) off hoff
    · simp [hr, datanukeErrIo, datanukeSuccess]
  | wfail idx1 tr1 =>
    simp [datanukeErrIo, datanukeSuccess]
  | nofuel tr1 =>
    simp [datanukeErrIo, datanukeSuccess]

/-- Concrete oracle for the C5 witness: a 5-byte file with every call
succeeding. -/
def c5Oracle : FileOracle :=
  ⟨true, 5, true, true, fun _ => true, fun _ _ => 9, true⟩

/-- Witness for C5: on a 5-byte file with 2 passes and all calls succeeding,
the run succeeds, the file is unlinked, all passes are below 2 and each of
the two passes covers every offset of [0, 5). -/
theorem c5_sweeps_then_unlink_witness :
    (secure_overwrite false c5Oracle 2).removed = true ∧
    (∀ e ∈ (secure_overwrite false c5Oracle 2).writes, e.pass < 2) ∧
    (∀ i, i < 2 → ∀ off, off < c5Oracle.st_size →
      ∃ e ∈ (secure_overwrite false c5Oracle 2).writes,
        e.pass = i ∧ e.off ≤ off ∧ off < e.off + e.data.length) :=
  (c5_sweeps_then_unlink c5Oracle 2).1 (by decide)

/-- Witness for C6: at pass index 2 the random branch really is taken and the
switch-selected pattern byte there is 0xAA, which the random branch
preempts. -/
theorem c6_pattern_selection_witness :
    fillChunk (fun _ _ => 3) 2 0 4 = (List.range 4).map ((fun _ _ => 3) 0) ∧
    fillPattern 2 = 0xAA := by
  have h := c6_pattern_selection (fun _ _ => 3) 2 0 4
  exact ⟨by simpa using h.1, h.2.mpr (by decide)⟩

/-- C9 amended: secure_delete_file always calls secure_overwrite with the
default pass count 3, and secure_overwrite rejects only a NULL path or a
pass count of 0 (returning the I/O error with nothing written); there is no
upper bound on the pass count. -/
theorem c9_default_and_zero_rejected (pathNull : Bool) (o : FileOracle) :
    secure_overwrite pathNull o 0 = ⟨datanukeErrIo, [], false, false, false⟩ ∧
    secure_delete_file pathNull o = secure_overwrite pathNull o 3 := by
  constructor
  · simp [secure_overwrite]
  · rfl

/-- Concrete oracle for the C9 counterexample: a 1-byte file with every call
succeeding. -/
def c9Oracle : FileOracle :=
  ⟨true, 1, true, true, fun _ => true, fun _ _ => 5, true⟩

/-- C9 counterexample: a pass count of 101, outside the claimed [1,100]
bound, is not rejected: secure_overwrite runs all 101 passes (101 write
events on a 1-byte file), succeeds, and unlinks the file, instead of
failing without writing any byte. -/
theorem c9_counterexample_101_accepted :
    (secure_overwrite false c9Oracle 101).status = datanukeSuccess ∧
    (secure_overwrite false c9Oracle 101).writes.length = 101 ∧
    (secure_overwrite false c9Oracle 101).removed = true := by
  decide

/-- Oracle for one crypto_encrypt_file run: results of the two fopen calls,
EVP_CIPHER_CTX_new, EVP_EncryptInit_ex, EVP_EncryptUpdate and
EVP_EncryptFinal_ex, the input file bytes, and the external AES-256-CBC
provider abstracted as two functions of the key, the IV and the input: the
ciphertext body produced by the update calls and the final padding block.
The 4096-byte fread / EncryptUpdate chunking of the C code feeds exactly the
input stream to the provider, which this abstraction maps at once; a failing
update is modelled as failing on the first chunk. -/
structure EncOracle where
  inOk : Bool
  outOk : Bool
  ctxNewOk : Bool
  initOk : Bool
  updOk : Bool
  finOk : Bool
  plaintext : List Nat
  evpBody : List Nat → List Nat → List Nat → List Nat
  evpPad : List Nat → List Nat → List Nat → List Nat

/-- Result of a crypto_encrypt_file run: the returned status, the bytes of
the output file (none when it was never created), and the context the
caller's pointer refers to after the call. -/
structure EncResult where
  status : Int
  outFile : Option (List Nat)
  ctxAfter : Option CryptoContext
  deriving DecidableEq

/-- Embeds crypto_encrypt_file (crypto module): NULL checks, fopen of input
and output, cipher context creation, init with the context's key and IV, the
chunked update loop, and the final call.  The function reads ctx->key and
ctx->iv but never writes through ctx: the context is returned unchanged on
every path. -/
def crypto_encrypt_file (inputNull outputNull : Bool)
    (ctx : Option CryptoContext) (o : EncOracle) : EncResult :=
  match ctx with
  | none => ⟨datanukeErrCrypto, none, none⟩
  | some c =>
    if inputNull ∨ outputNull then ⟨datanukeErrCrypto, none, some c⟩
    else if o.inOk = false then ⟨datanukeErrIo, none, some c⟩
    else if o.outOk = false then ⟨datanukeErrIo, none, some c⟩
    else if o.ctxNewOk = false then ⟨datanukeErrCrypto, some [], some c⟩
    else if o.initOk = false then ⟨datanukeErrCrypto, some [], some c⟩
    else if o.updOk = false then ⟨datanukeErrCrypto, some [], some c⟩
    else if o.finOk = false then
      ⟨datanukeErrCrypto, some (o.evpBody c.key c.iv o.plaintext), some c⟩
    else
      ⟨datanukeSuccess,
        some (o.evpBody c.key c.iv o.plaintext ++ o.evpPad c.key c.iv o.plaintext),
        some c⟩

/-- Concrete context for the C3 counterexample. -/
def c3Ctx : CryptoContext := ⟨List.replicate 32 1, List.replicate 16 2⟩

/-- Concrete oracle for the C3 counterexample: every call succeeds and the
provider is instantiated with concrete functions. -/
def c3Enc : EncOracle :=
  ⟨true, true, true, true, true, true, [10, 20, 30],
    fun _ _ d => d, fun _ _ _ => List.replicate 16 0⟩

/-- C3 counterexample: calling crypto_encrypt_file a second time on the very
context returned by a first successful call does not fail with a
contract-violation error: it succeeds again and performs a second transform
(the output file is written with the provider's ciphertext).  There is no
single-use enforcement. -/
theorem c3_counterexample_second_call_succeeds :
    (crypto_encrypt_file false false (some c3Ctx) c3Enc).status = datanukeSuccess ∧
    (crypto_encrypt_file false false (some c3Ctx) c3Enc).ctxAfter = some c3Ctx ∧
    (crypto_encrypt_file false false
        (crypto_encrypt_file false false (some c3Ctx) c3Enc).ctxAfter c3Enc).status =
      datanukeSuccess ∧
    (crypto_encrypt_file false false
        (crypto_encrypt_file false false (some c3Ctx) c3Enc).ctxAfter c3Enc).outFile =
      some ([10, 20, 30] ++ List.replicate 16 0) := by
  decide

/-- C3 amended: crypto_encrypt_file keeps no single-use state: it never
writes through the context pointer, and a second call on the context
returned by the first call behaves exactly like the first call (same status,
same output file), re-running the transform with the same key and IV instead
of failing fast with a contract-violation error. -/
theorem c3_no_single_use_enforcement (c : CryptoContext)
    (inputNull outputNull : Bool) (o : EncOracle) :
    (crypto_encrypt_file inputNull outputNull (some c) o).ctxAfter = some c ∧
    crypto_encrypt_file inputNull outputNull
        (crypto_encrypt_file inputNull outputNull (some c) o).ctxAfter o =
      crypto_encrypt_file inputNull outputNull (some c) o := by
  have h1 : (crypto_encrypt_file inputNull outputNull (some c) o).ctxAfter = some c := by
    unfold crypto_encrypt_file
    split_ifs <;> rfl
  exact ⟨h1, by rw [h1]⟩

/-- Models fgets reading into a buffer of n+1 bytes: it consumes bytes up to
and including the first newline, but at most n bytes in total. -/
def takeLine : Nat → List Nat → List Nat
  | 0, _ => []
  | _, [] => []
  | n + 1, c :: rest => if c = 10 then [10] else c :: takeLine n rest

/-- Models fgets(buf, 10, stdin): NULL at end-of-input, else the bytes read
(at most 9, stopping after a newline). -/
def fgets10 (stdin : List Nat) : Option (List Nat) :=
  if stdin = [] then none else some (takeLine 9 stdin)

/-- The C string stored in a buffer: the bytes before the first NUL. -/
def cstr (cs : List Nat) : List Nat :=
  cs.takeWhile (fun c => c != 0)

/-- Models the strcspn-based newline removal: the first newline position of
the C string (or its end) gets a NUL, so the C string that remains is the
prefix before the first newline. -/
def stripNewline (cs : List Nat) : List Nat :=
  (cstr cs).takeWhile (fun c => c != 10)

/-- The bytes of the literal string YES. -/
def yesBytes : List Nat := [89, 69, 83]

/-- The device confirmation check inlined in main (src/main.c): fgets into a
10-byte buffer, then strncmp(confirm, the four bytes Y E S newline, 4) must
be zero; with no NUL among the compared bytes this is equality of the first
four buffer bytes with those four bytes. -/
def mainConfirmOk (stdin : List Nat) : Bool :=
  match fgets10 stdin with
  | none => false
  | some cs => cs.take 4 == [89, 69, 83, 10]

/-- takeWhile keeps a whole list all of whose elements satisfy the
predicate. -/
theorem takeWhile_of_forall (p : Nat → Bool) (l : List Nat)
    (h : ∀ a ∈ l, p a = true) : l.takeWhile p = l := by
  induction l with
  | nil => rfl
  | cons a l ih =>
    have ha := h a (by simp)
    simp [List.takeWhile_cons, ha, ih (fun b hb => h b (by simp [hb]))]

/-- takeWhile over a list followed by one failing element keeps exactly the
list. -/
theorem takeWhile_append_singleton (p : Nat → Bool) (l : List Nat) (x : Nat)
    (h : ∀ a ∈ l, p a = true) (hx : p x = false) :
    (l ++ [x]).takeWhile p = l := by
  induction l with
  | nil => simp [List.takeWhile_cons, hx]
  | cons a l ih =>
    have ha := h a (by simp)
    simp [List.takeWhile_cons, ha, ih (fun b hb => h b (by simp [hb]))]

/-- Reading a line with fgets: for a newline-free line l followed by the
newline, the buffer receives the first 9 bytes of l, plus the newline when
the whole line (shorter than 9) fit. -/
theorem takeLine_append_newline (l r : List Nat) (n : Nat) (hl : (10 : Nat) ∉ l) :
    takeLine n (l ++ 10 :: r) = l.take n ++ (if l.length < n then [10] else []) := by
  induction l generalizing n with
  | nil =>
    cases n with
    | zero => simp [takeLine]
    | succ m => simp [takeLine]
  | cons a l ih =>
    have ha : a ≠ 10 := fun h => hl (by simp [h])
    cases n with
    | zero => simp [takeLine]
    | succ m =>
      have hm : (10 : Nat) ∉ l := fun h => hl (by simp [h])
      simp [takeLine, ha, ih m hm, Nat.succ_lt_succ_iff]

/-- The device gate: for a NUL-free, newline-free line l, the 10-byte fgets
buffer after newline stripping compares equal to YES exactly when l is the
three bytes Y E S. -/
theorem strip_gate_iff (l r : List Nat) (h0 : (0 : Nat) ∉ l)
    (h10 : (10 : Nat) ∉ l) :
    (stripNewline (takeLine 9 (l ++ 10 :: r)) = yesBytes ↔ l = yesBytes) := by
  rw [takeLine_append_newline l r 9 h10]
  by_cases hlen : l.length < 9
  · have htake : l.take 9 = l := List.take_of_length_le (by omega)
    rw [htake, if_pos hlen]
    have hz : ∀ a ∈ l ++ [10], (a != 0) = true := by
      intro a ha
      rcases List.mem_append.mp ha with h | h
      · have hne : a ≠ 0 := fun e => h0 (e ▸ h)
        simpa using hne
      · simp at h
        simp [h]
    have h1 : cstr (l ++ [10]) = l ++ [10] := takeWhile_of_forall _ _ hz
    have h2 : (l ++ [10]).takeWhile (fun c => c != 10) = l := by
      apply takeWhile_append_singleton
      · intro a ha
        have hne : a ≠ 10 := fun e => h10 (e ▸ ha)
        simpa using hne
      · simp
    rw [stripNewline, h1, h2]
  · rw [if_neg hlen]
    have hz : ∀ a ∈ l.take 9, (a != 0) = true := by
      intro a ha
      have hm : a ∈ l := List.mem_of_mem_take ha
      have hne : a ≠ 0 := fun e => h0 (e ▸ hm)
      simpa using hne
    have h1 : cstr (l.take 9 ++ []) = l.take 9 := by
      rw [List.append_nil]
      exact takeWhile_of_forall _ _ hz
    have h2 : (l.take 9).takeWhile (fun c => c != 10) = l.take 9 := by
      apply takeWhile_of_forall
      intro a ha
      have hm : a ∈ l := List.mem_of_mem_take ha
      have hne : a ≠ 10 := fun e => h10 (e ▸ hm)
      simpa using hne
    rw [stripNewline, h1, h2]
    constructor
    · intro h
      have hlen3 : (l.take 9).length = 3 := by rw [h]; rfl
      simp [List.length_take] at hlen3
      omega
    · intro h
      subst h
      simp [yesBytes] at hlen

/-- The gate inlined in main: for a NUL-free, newline-free line l, the first
four bytes of the fgets buffer equal Y E S newline exactly when l is the
three bytes Y E S. -/
theorem take4_gate_iff (l r : List Nat) (h10 : (10 : Nat) ∉ l) :
    ((takeLine 9 (l ++ 10 :: r)).take 4 = [89, 69, 83, 10] ↔ l = yesBytes) := by
  rw [takeLine_append_newline l r 9 h10]
  match l with
  | [] => simp [yesBytes]
  | [a] => simp [yesBytes]
  | [a, b] => simp [yesBytes]
  | [a, b, c] =>
    simp [yesBytes]
  | a :: b :: c :: d :: tl =>
    have hd : d ≠ 10 := fun e => h10 (by simp [e])
    constructor
    · intro h
      by_cases hlen : (a :: b :: c :: d :: tl).length < 9 <;>
        simp [hlen, List.take] at h <;> exact absurd h.2.2.2 hd
    · intro h
      simp [yesBytes] at h

/-- One write(2) event of the device wipe: the true device offset it starts
at (the file offset, which advances only by the bytes the call actually
transferred), the chunk size the loop requested, and the bytes actually
transferred to the device. -/
structure DevWrite where
  off : Nat
  req : Nat
  data : List Nat
  deriving DecidableEq

/-- Oracle for one secure_delete_device run: the interactive input bytes,
the result of platform_get_device_size and the size it reports, the results
of open and malloc, the result of each write(2) call (none models a negative
return; some r models a return of r, the number of bytes transferred, which
may be short of the requested chunk), and the RAND_bytes stream. -/
structure DevOracle where
  stdin : List Nat
  sizeOk : Bool
  devSize : Nat
  openOk : Bool
  mallocOk : Bool
  writeRes : Nat → Option Nat
  rng : Nat → Nat → Nat

/-- Outcome of the device write loop. -/
inductive DevLoopOut where
  | ok (tr : List DevWrite)
  | wfail (tr : List DevWrite)
  | nofuel (tr : List DevWrite)
  deriving DecidableEq

/-- The while (written < device_size) loop of secure_delete_device: chunk
size is min(device_size - written, 1 MB) and the buffer is filled by
RAND_bytes.  The C code checks only result < 0 from write(2): a short write
(0 <= result < chunk_size) is accepted silently and the loop counter written
still advances by the full chunk_size, while the device file offset and the
bytes on the device advance only by the transferred count (pos tracks the
true device offset; a call cannot transfer more than it requested). -/
def devLoop (o : DevOracle) : Nat → Nat → Nat → Nat → List DevWrite → DevLoopOut
  | fuel, written, pos, idx, tr =>
    if o.devSize ≤ written then .ok tr
    else
      match fuel with
      | 0 => .nofuel tr
      | fuel + 1 =>
        let chunk := min (o.devSize - written) 1048576
        let data := (List.range chunk).map (o.rng idx)
        match o.writeRes idx with
        | none => .wfail tr
        | some r =>
          devLoop o fuel (written + chunk) (pos + min r chunk) (idx + 1)
            (tr ++ [⟨pos, chunk, data.take (min r chunk)⟩])

/-- Result of a secure_delete_device run: the returned status, whether the
YES confirmation gate was passed, the trace of device writes, whether any
unlink was performed (the C function contains no remove call, so every exit
path reports false), and the (never reached) fuel marker. -/
structure DevResult where
  status : Int
  confirmed : Bool
  writes : List DevWrite
  removed : Bool
  fuelOut : Bool
  deriving DecidableEq

/-- Embeds secure_delete_device (src/secure_delete.c): NULL check, the YES
confirmation gate (fgets into a 10-byte buffer, newline strip, strcmp
against YES), then the device-size probe, open, malloc, and the single
random-fill write loop driven by the written counter.  There is no remove
step. -/
def secure_delete_device (pathNull : Bool) (o : DevOracle) : DevResult :=
  if pathNull then ⟨datanukeErrIo, false, [], false, false⟩
  else
    match fgets10 o.stdin with
    | none => ⟨datanukeErrIo, false, [], false, false⟩
    | some cs =>
      if stripNewline cs ≠ yesBytes then ⟨datanukeErrIo, false, [], false, false⟩
      else if o.sizeOk = false then ⟨datanukeErrPlatform, true, [], false, false⟩
      else if o.openOk = false then ⟨datanukeErrIo, true, [], false, false⟩
      else if o.mallocOk = false then ⟨datanukeErrMemory, true, [], false, false⟩
      else
        match devLoop o o.devSize 0 0 0 [] with
        | .ok tr => ⟨datanukeSuccess, true, tr, false, false⟩
        | .wfail tr => ⟨datanukeErrIo, true, tr, false, false⟩
        | .nofuel tr => ⟨datanukeErrIo, true, tr, false, true⟩

/-- Total number of bytes actually transferred across a device write
trace. -/
def sumLen (tr : List DevWrite) : Nat :=
  (tr.map (fun e => e.data.length)).sum

/-- Total number of bytes requested across a device write trace. -/
def sumReq (tr : List DevWrite) : Nat :=
  (tr.map (fun e => e.req)).sum

/-- An oracle whose write(2) calls always transfer the full requested
chunk: every successful call reports at least 1 MB, the largest request any
chunk makes, so min r chunk is always the chunk itself. -/
def devWritesFull (o : DevOracle) : Prop :=
  ∀ idx r, o.writeRes idx = some r → 1048576 ≤ r

/-- If the device write loop completes normally then, for any oracle, the
trace only grows and the requested bytes account exactly for the interval
[written, devSize): the loop always advances its counter by the full chunk,
whether or not the bytes were transferred. -/
theorem devLoop_ok_req_spec (o : DevOracle) (fuel : Nat) :
    ∀ written pos idx tr tr2,
      devLoop o fuel written pos idx tr = .ok tr2 →
      o.devSize - written ≤ fuel →
      (∀ e ∈ tr, e ∈ tr2) ∧
      sumReq tr2 = sumReq tr + (o.devSize - written) := by
  induction fuel with
  | zero =>
    intro written pos idx tr tr2 h hle
    by_cases h0 : o.devSize ≤ written
    · rw [devLoop] at h
      simp [h0] at h
      subst h
      exact ⟨fun e he => he, by omega⟩
    · rw [devLoop] at h
      simp [h0] at h
  | succ f ih =>
    intro written pos idx tr tr2 h hle
    by_cases h0 : o.devSize ≤ written
    · rw [devLoop] at h
      simp [h0] at h
      subst h
      exact ⟨fun e he => he, by omega⟩
    · rw [devLoop] at h
      simp [h0] at h
      cases hw : o.writeRes idx with
      | none => simp [hw] at h
      | some r =>
        simp [hw] at h
        obtain ⟨mono, hsum⟩ := ih _ _ _ _ _ h (by omega)
        refine ⟨fun e he => mono e (by simp [he]), ?_⟩
        rw [hsum]
        simp [sumReq]
        omega

/-- If every write call transfers its full requested chunk and the loop
counter agrees with the device offset, a normal completion of the device
write loop covers every offset from written to devSize and transfers
exactly devSize - written bytes. -/
theorem devLoop_ok_full_spec (o : DevOracle) (hfull : devWritesFull o)
    (fuel : Nat) :
    ∀ written idx tr tr2,
      devLoop o fuel written written idx tr = .ok tr2 →
      o.devSize - written ≤ fuel →
      (∀ e ∈ tr, e ∈ tr2) ∧
      (∀ off, written ≤ off → off < o.devSize →
        ∃ e ∈ tr2, e.off ≤ off ∧ off < e.off + e.data.length) ∧
      sumLen tr2 = sumLen tr + (o.devSize - written) := by
  induction fuel with
  | zero =>
    intro written idx tr tr2 h hle
    by_cases h0 : o.devSize ≤ written
    · rw [devLoop] at h
      simp [h0] at h
      subst h
      exact ⟨fun e he => he, fun off hlo hhi => by omega, by omega⟩
    · rw [devLoop] at h
      simp [h0] at h
  | succ f ih =>
    intro written idx tr tr2 h hle
    by_cases h0 : o.devSize ≤ written
    · rw [devLoop] at h
      simp [h0] at h
      subst h
      exact ⟨fun e he => he, fun off hlo hhi => by omega, by omega⟩
    · rw [devLoop] at h
      simp [h0] at h
      cases hw : o.writeRes idx with
      | none => simp [hw] at h
      | some r =>
        simp [hw] at h
        have hr : 1048576 ≤ r := hfull idx r hw
        have ht : min r (min (o.devSize - written) 1048576) =
            min (o.devSize - written) 1048576 := by omega
        rw [ht] at h
        obtain ⟨mono, cov, hsum⟩ := ih _ _ _ _ h (by omega)
        have he0 :
            (⟨written, min (o.devSize - written) 1048576,
              ((List.range (min (o.devSize - written) 1048576)).map
                (o.rng idx)).take (min (o.devSize - written) 1048576)⟩ :
              DevWrite) ∈ tr2 := by
          apply mono
          simp
        refine ⟨fun e he => mono e (by simp [he]), ?_, ?_⟩
        · intro off hlo hhi
          by_cases hc : off < written + min (o.devSize - written) 1048576
          · refine ⟨_, he0, hlo, ?_⟩
            simp
            omega
          · exact cov off (by omega) hhi
        · rw [hsum]
          simp [sumLen]
          omega



/-- When the gate is passed, every later exit of secure_delete_device
reports confirmed. -/
theorem dev_gate_accept (o : DevOracle) (cs : List Nat)
    (h : fgets10 o.stdin = some cs) (hy : stripNewline cs = yesBytes) :
    (secure_delete_device false o).confirmed = true := by
  unfold secure_delete_device
  rw [h]
  simp only [hy, ne_eq, not_true_eq_false, if_false, Bool.false_eq_true]
  split_ifs <;> try rfl
  cases devLoop o o.devSize 0 0 0 [] <;> rfl

/-- When the gate is not passed, secure_delete_device rejects with the I/O
error, no confirmation, and no write. -/
theorem dev_gate_reject (o : DevOracle) (cs : List Nat)
    (h : fgets10 o.stdin = some cs) (hy : stripNewline cs ≠ yesBytes) :
    secure_delete_device false o = ⟨datanukeErrIo, false, [], false, false⟩ := by
  unfold secure_delete_device
  rw [h]
  simp [hy]

/-- C4: with a line l (no NUL, no newline) on interactive input, the device
operation is confirmed if and only if l is exactly YES; on any other line it
aborts with the I/O error code and zero bytes written to the device.  The
same exactness holds for the confirmation gate inlined in main for device
encryption. -/
theorem c4_confirmation_exact (l r : List Nat) (o : DevOracle)
    (h0 : (0 : Nat) ∉ l) (h10 : (10 : Nat) ∉ l)
    (hin : o.stdin = l ++ 10 :: r) :
    ((secure_delete_device false o).confirmed = true ↔ l = yesBytes) ∧
    ((secure_delete_device false o).confirmed = false →
      (secure_delete_device false o).status = datanukeErrIo ∧
      (secure_delete_device false o).writes = []) ∧
    (mainConfirmOk (l ++ 10 :: r) = true ↔ l = yesBytes) := by
  have hne : l ++ 10 :: r ≠ [] := by simp
  have hf : fgets10 o.stdin = some (takeLine 9 (l ++ 10 :: r)) := by
    rw [hin]
    unfold fgets10
    rw [if_neg hne]
  have hstrip := strip_gate_iff l r h0 h10
  have htake4 := take4_gate_iff l r h10
  have hmain : mainConfirmOk (l ++ 10 :: r) = true ↔ l = yesBytes := by
    unfold mainConfirmOk fgets10
    rw [if_neg hne]
    simp only [beq_iff_eq]
    exact htake4
  by_cases hl : l = yesBytes
  · have hacc := dev_gate_accept o _ hf (hstrip.mpr hl)
    refine ⟨by simp [hacc, hl], ?_, hmain⟩
    intro hfalse
    rw [hacc] at hfalse
    cases hfalse
  · have hrej := dev_gate_reject o _ hf (fun h => hl (hstrip.mp h))
    rw [hrej]
    refine ⟨by simpa using hl, fun _ => ⟨rfl, rfl⟩, hmain⟩

/-- Concrete oracle for the C4 witness: the input line is exactly YES. -/
def c4Oracle : DevOracle :=
  ⟨[89, 69, 83, 10], true, 3, true, true, fun _ => some 1048576, fun _ _ => 1⟩

/-- Witness for C4: on the input line YES both gates accept. -/
theorem c4_confirmation_exact_witness :
    (secure_delete_device false c4Oracle).confirmed = true ∧
    mainConfirmOk ([89, 69, 83] ++ 10 :: []) = true := by
  have h := c4_confirmation_exact [89, 69, 83] [] c4Oracle (by decide) (by decide) rfl
  exact ⟨h.1.mpr rfl, h.2.2.mpr rfl⟩

/-- Concrete oracle for C7: confirmation YES, a 5-byte device, every call
succeeding with full transfers, RAND_bytes returning the byte 7. -/
def c7Oracle : DevOracle :=
  ⟨[89, 69, 83, 10], true, 5, true, true, fun _ => some 1048576, fun _ _ => 7⟩

/-- Concrete oracle for C7 with a short write: the single write(2) call on
the confirmed 5-byte device reports only 3 bytes transferred. -/
def c7ShortOracle : DevOracle :=
  ⟨[89, 69, 83, 10], true, 5, true, true, fun _ => some 3, fun _ _ => 7⟩

/-- C7 counterexample, two concrete runs.  Full-transfer run: the confirmed
5-byte device succeeds with exactly one write event, a single sweep of
RAND_bytes data covering [0, 5) once — not the engine's multi-pass
0x00 / 0xFF / random pattern overwrite.  Short-write run: the single
write(2) call transfers only 3 of the 5 requested bytes; the code checks
only for a negative return and advances its counter by the full chunk, so
it still reports success although offsets 3 and 4 of the device were never
written — success does not imply that every byte of the device was
written. -/
theorem c7_counterexample_single_pass :
    (secure_delete_device false c7Oracle).status = datanukeSuccess ∧
    (secure_delete_device false c7Oracle).writes = [⟨0, 5, [7, 7, 7, 7, 7]⟩] ∧
    (secure_delete_device false c7ShortOracle).status = datanukeSuccess ∧
    (secure_delete_device false c7ShortOracle).writes = [⟨0, 5, [7, 7, 7]⟩] ∧
    sumLen (secure_delete_device false c7ShortOracle).writes = 3 := by
  decide

/-- C7 amended: for a confirmed device, secure_delete_device never performs
an unlink; it writes nothing unless the device-size probe succeeded (the
probe strictly precedes the first write); on success its single random-fill
sweep has requested exactly devSize bytes in total (a single pass, never a
second one); and only under the extra assumption that every write(2) call
transfers its full requested chunk does success guarantee that the sweep
covered every offset of [0, devSize) with exactly devSize bytes
transferred — the code accepts short writes silently, so success alone does
not guarantee coverage. -/
theorem c7_probe_then_single_sweep (o : DevOracle) :
    (secure_delete_device false o).removed = false ∧
    (o.sizeOk = false → (secure_delete_device false o).writes = []) ∧
    ((secure_delete_device false o).status = datanukeSuccess →
      sumReq (secure_delete_device false o).writes = o.devSize) ∧
    (devWritesFull o →
      (secure_delete_device false o).status = datanukeSuccess →
      sumLen (secure_delete_device false o).writes = o.devSize ∧
      (∀ off, off < o.devSize →
        ∃ e ∈ (secure_delete_device false o).writes,
          e.off ≤ off ∧ off < e.off + e.data.length)) := by
  unfold secure_delete_device
  cases hf : fgets10 o.stdin with
  | none => simp [datanukeErrIo, datanukeSuccess]
  | some cs =>
    by_cases hy : stripNewline cs = yesBytes
    · simp only [hy, ne_eq, not_true_eq_false, if_false, Bool.false_eq_true]
      by_cases hs : o.sizeOk = false
      · simp [hs, datanukeErrPlatform, datanukeSuccess]
      by_cases ho : o.openOk = false
      · simp [hs, ho, datanukeErrIo, datanukeSuccess]
      by_cases hm : o.mallocOk = false
      · simp [hs, ho, hm, datanukeErrMemory, datanukeSuccess]
      simp only [hs, ho, hm, if_false, Bool.false_eq_true]
      cases hdl : devLoop o o.devSize 0 0 0 [] with
      | ok tr =>
        obtain ⟨_, hreq⟩ := devLoop_ok_req_spec o o.devSize 0 0 0 [] tr hdl (by omega)
        simp only []
        refine ⟨rfl, fun h => absurd h (by simp [hs]), fun _ => ?_, fun hfull _ => ?_⟩
        · simpa [sumReq] using hreq
        · obtain ⟨_, cov, hsum⟩ :=
            devLoop_ok_full_spec o hfull o.devSize 0 0 [] tr hdl (by omega)
          exact ⟨by simpa [sumLen] using hsum,
            fun off hoff => cov off (by omega) hoff⟩
      | wfail tr => simp [datanukeErrIo, datanukeSuccess]
      | nofuel tr => simp [datanukeErrIo, datanukeSuccess]
    · simp [hy, datanukeErrIo, datanukeSuccess]

/-- Witness for C7: on the concrete confirmed 5-byte device with full
transfers the amended statement is realized: no unlink, 5 bytes requested,
and (the write being full) 5 bytes transferred covering [0, 5). -/
theorem c7_probe_then_single_sweep_witness :
    (secure_delete_device false c7Oracle).removed = false ∧
    sumReq (secure_delete_device false c7Oracle).writes = c7Oracle.devSize ∧
    sumLen (secure_delete_device false c7Oracle).writes = c7Oracle.devSize ∧
    (∀ off, off < c7Oracle.devSize →
      ∃ e ∈ (secure_delete_device false c7Oracle).writes,
        e.off ≤ off ∧ off < e.off + e.data.length) := by
  have hfull : devWritesFull c7Oracle := by
    intro idx r h
    simp [c7Oracle] at h
    omega
  have h := c7_probe_then_single_sweep c7Oracle
  exact ⟨h.1, h.2.2.1 (by decide), (h.2.2.2 hfull (by decide)).1,
    (h.2.2.2 hfull (by decide)).2⟩

/-- Embeds platform_is_device (src/platform.c): a NULL path returns 0, a
failed stat returns 0 as well (although include/datanuke.h documents -1 on
error and main checks for a negative result), otherwise S_ISBLK decides
between 1 (device) and 0 (regular file). -/
def platform_is_device (pathNull statOk isBlk : Bool) : Int :=
  if pathNull then 0
  else if statOk = false then 0
  else if isBlk then 1 else 0

/-- Embeds platform_lock_memory (src/platform.c): success of mlock maps to
DATANUKE_SUCCESS, failure to the platform error code. -/
def platform_lock_memory (lockOk : Bool) : Int :=
  if lockOk then datanukeSuccess else datanukeErrPlatform

/-- Embeds platform_unlock_memory (src/platform.c). -/
def platform_unlock_memory (unlockOk : Bool) : Int :=
  if unlockOk then datanukeSuccess else datanukeErrPlatform

/-- The operator-visible messages printed by main (src/main.c), one
constructor per print site.  There is no print site for a memory-pin
failure: main discards the platform_lock_memory result. -/
inductive CMsg where
  | usage
  | cannotAccess
  | banner
  | devSizeInfo
  | devConfirmPrompt
  | aborted
  | cryptoInitFail
  | devEncryptFail
  | encryptFail
  | replaceFail
  | keyDisplay
  | wipeFail
  | successBox
  deriving DecidableEq

/-- Oracle for one run of main, field order: argc, stat success, S_ISBLK,
device-size probe success, interactive input bytes, key RAND success, key
random bytes, IV RAND success, IV random bytes, mlock success, device
encryption success, the crypto_encrypt_file oracle, remove success, rename
success, munlock success, wipe-pass-3 RAND success and bytes. -/
structure MainWorld where
  argc : Nat
  statOk : Bool
  isBlk : Bool
  devSizeOk : Bool
  stdin : List Nat
  keyOk : Bool
  keyRnd : Nat → Nat
  ivOk : Bool
  ivRnd : Nat → Nat
  lockOk : Bool
  devEncOk : Bool
  enc : EncOracle
  removeOk : Bool
  renameOk : Bool
  unlockOk : Bool
  wipeRndOk : Bool
  wipeRnd : Nat → Nat

/-- Result of one run of main: the process exit code, the messages printed,
the contents of the stack crypto context when the process exits, and whether
crypto_secure_wipe_key was invoked on the context (directly or through
crypto_cleanup) before exit. -/
structure MainResult where
  exitCode : Int
  msgs : List CMsg
  ctxAtExit : Option CryptoContext
  wiped : Bool
  deriving DecidableEq

/-- Modelled from the spec: crypto_encrypt_device is called from main and
listed in the developer guide, but its definition is not among the sources;
spec section 6 describes the provider stream transform it wraps, which
either succeeds or fails (CryptoError / IoError).  It is abstracted here by
its outcome. -/
def crypto_encrypt_device (devEncOk : Bool) : Int :=
  if devEncOk then datanukeSuccess else datanukeErrCrypto

/-- The tail of main after a successful encryption (src/main.c): display the
key, wipe it, and print the success summary; the dead wipe-failure branch is
kept.  Unlock and cleanup run before returning. -/
def mainFinish (w : MainWorld) (preMsgs : List CMsg)
    (ctx : Option CryptoContext) : MainResult :=
  let wr := crypto_secure_wipe_key ctx w.wipeRndOk w.wipeRnd
  if wr.2 ≠ datanukeSuccess then
    let _u := platform_unlock_memory w.unlockOk
    ⟨1, preMsgs ++ [.keyDisplay, .wipeFail],
      crypto_cleanup wr.1 w.wipeRndOk w.wipeRnd, true⟩
  else
    let _u := platform_unlock_memory w.unlockOk
    ⟨0, preMsgs ++ [.keyDisplay, .successBox],
      crypto_cleanup wr.1 w.wipeRndOk w.wipeRnd, true⟩

/-- Embeds main (src/main.c): argument check, target classification via
platform_is_device, banner, device confirmation gate, crypto_init (on whose
failure main returns 1 with no wipe and the context left as crypto_init left
it), the discarded platform_lock_memory call, the device or file encryption
branch (each failure unlocking and cleaning up before returning 1), the
remove/rename replacement step for files, and the display / wipe / summary
tail. -/
def main_run (w : MainWorld) : MainResult :=
  if w.argc ≠ 2 then ⟨1, [.usage], none, false⟩
  else
    let isDev := platform_is_device false w.statOk w.isBlk
    if isDev < 0 then ⟨1, [.cannotAccess], none, false⟩
    else
      let preMsgs := [CMsg.banner] ++
        (if isDev ≠ 0 then
          (if w.devSizeOk then [CMsg.devSizeInfo] else []) ++ [CMsg.devConfirmPrompt]
        else [])
      if isDev ≠ 0 ∧ mainConfirmOk w.stdin = false then
        ⟨1, preMsgs ++ [.aborted], none, false⟩
      else
        let ci := crypto_init false w.keyOk w.keyRnd w.ivOk w.ivRnd
        if ci.2 ≠ datanukeSuccess then
          ⟨1, preMsgs ++ [.cryptoInitFail], ci.1, false⟩
        else
          let _lockRes := platform_lock_memory w.lockOk
          if isDev ≠ 0 then
            if crypto_encrypt_device w.devEncOk ≠ datanukeSuccess then
              let _u := platform_unlock_memory w.unlockOk
              ⟨1, preMsgs ++ [.devEncryptFail],
                crypto_cleanup ci.1 w.wipeRndOk w.wipeRnd, true⟩
            else
              mainFinish w preMsgs ci.1
          else
            let er := crypto_encrypt_file false false ci.1 w.enc
            if er.status ≠ datanukeSuccess then
              let _u := platform_unlock_memory w.unlockOk
              ⟨1, preMsgs ++ [.encryptFail],
                crypto_cleanup ci.1 w.wipeRndOk w.wipeRnd, true⟩
            else if w.removeOk = false ∨ w.renameOk = false then
              let _u := platform_unlock_memory w.unlockOk
              ⟨1, preMsgs ++ [.replaceFail],
                crypto_cleanup ci.1 w.wipeRndOk w.wipeRnd, true⟩
            else
              mainFinish w preMsgs ci.1

/-- Replaces only the mlock success flag of a main oracle. -/
def setLockOk (w : MainWorld) (b : Bool) : MainWorld :=
  ⟨w.argc, w.statOk, w.isBlk, w.devSizeOk, w.stdin, w.keyOk, w.keyRnd,
    w.ivOk, w.ivRnd, b, w.devEncOk, w.enc, w.removeOk, w.renameOk,
    w.unlockOk, w.wipeRndOk, w.wipeRnd⟩

/-- The failing input for C2: a regular-file run in which key generation
succeeds (RAND_bytes yields the byte 0xAB throughout) and the subsequent IV
generation in crypto_init fails. -/
def c2World : MainWorld :=
  ⟨2, true, false, true, [], true, fun _ => 171, false, fun _ => 9,
    true, true, c3Enc, true, true, true, true, fun _ => 3⟩

/-- C2, evaluated at the failing input: when crypto_init fails after the key
bytes have been generated (IV generation fails), main surfaces the error
(exit code 1) without ever invoking crypto_secure_wipe_key or
crypto_cleanup, and the stack context still holds the full generated key
(32 bytes of 0xAB) at process exit — destruction is skipped on this failure
path, contradicting the claim that every failure after key generation routes
through the wipe. -/
theorem c2_iv_failure_exits_without_wipe :
    (main_run c2World).exitCode = 1 ∧
    (main_run c2World).wiped = false ∧
    (main_run c2World).ctxAtExit =
      some ⟨List.replicate 32 171, List.replicate 16 0⟩ ∧
    (main_run c2World).msgs = [CMsg.banner, CMsg.cryptoInitFail] := by
  decide

/-- The failing input for C8: stat on the target fails (an inaccessible
path), every later call succeeds; isBlk is set so that even a block device
would be misclassified. -/
def c8World : MainWorld :=
  ⟨2, false, true, true, [], true, fun _ => 4, true, fun _ => 8,
    true, true, c3Enc, true, true, true, true, fun _ => 6⟩

/-- C8, evaluated at the failing input: platform_is_device returns 0
(regular file) for an inaccessible path whatever the file type, never the
negative error its header documents, so main's is_device < 0 abort branch
is unreachable: the run proceeds as a regular-file operation to completion
instead of aborting with an error. -/
theorem c8_stat_failure_classified_as_file :
    (∀ b : Bool, platform_is_device false false b = 0) ∧
    (main_run c8World).exitCode = 0 ∧
    (main_run c8World).msgs = [CMsg.banner, CMsg.keyDisplay, CMsg.successBox] := by
  refine ⟨fun b => by cases b <;> rfl, by decide, by decide⟩

/-- The concrete run for the C10 counterexample: a regular-file run in which
every call succeeds except mlock. -/
def c10World : MainWorld :=
  ⟨2, true, false, true, [], true, fun _ => 7, true, fun _ => 8,
    false, true, c3Enc, true, true, true, true, fun _ => 2⟩

/-- C10 counterexample: with the memory pin failing, the run proceeds to
completion (exit code 0), but its entire observable result — the message
list included — is identical to the run in which the pin succeeds: main
discards the platform_lock_memory result, so no warning about the pin
failure is emitted, contradicting the claimed clear warning. -/
theorem c10_counterexample_no_pin_warning :
    c10World.lockOk = false ∧
    (main_run c10World).exitCode = 0 ∧
    main_run c10World = main_run (setLockOk c10World true) := by
  exact ⟨rfl, by decide, rfl⟩

/-- C10 amended: a pin failure is never propagated — the whole result of
main (exit code, messages, final context, wipe flag) is independent of the
mlock outcome, so the run proceeds unpinned exactly as it would pinned; but
no warning is emitted either, since no message depends on the pin result. -/
theorem c10_pin_failure_ignored (w : MainWorld) (b : Bool) :
    main_run (setLockOk w b) = main_run w := rfl
